import Mathlib

/-!
Verification development for the CircuitBoard repository.

The repository contains several variants of a linear resistive-circuit
solver:

* `V1/CircuitBoard.py` — text-mode mesh analysis (`calculate_mesh_currents`);
* `V2/CircuitBoard.py` — GUI mesh analysis (`perform_mesh_analysis`);
* `Failed/gamma.py` — schematic-capture mesh analyzer (`analyze_circuit`,
  graph build, cycle basis, determinant check);
* `Failed/delta.py` — node-voltage analyzer (`choose_ground_node`,
  `generate_node_equations`, `solve_analysis`, `calculate_total_current`).

All numeric computation is embedded over `ℚ` (the Python code uses
floating point; every concrete instance used below is exactly
representable, and the properties at stake are discrete).
-/

set_option allowUnsafeReducibility true

attribute [semireducible] Rat.add Rat.mul Rat.inv Rat.sub Rat.ofScientific

deriving instance DecidableEq for Except

namespace CircuitBoard

/-! ### Dense linear algebra over ℚ (lists of rows)

`np.linalg.det` / `np.linalg.solve` on the assembled systems are embedded
as the exact determinant (Laplace expansion along the first row) and the
unique solution of a nonsingular system (Cramer).  `np.linalg.solve`
raises `LinAlgError` exactly on singular input, which over exact
arithmetic is `det = 0`. -/

/-- Laplace-expansion determinant with explicit fuel (the fuel is always
instantiated with the number of rows, which strictly decreases). -/
def detAux : Nat → List (List ℚ) → ℚ
  | 0, _ => 1
  | _, [] => 1
  | fuel + 1, row :: rest =>
      (List.range row.length).foldl
        (fun acc j =>
          acc + (if j % 2 = 0 then (1 : ℚ) else -1) * row.getD j 0 *
            detAux fuel (rest.map (fun r => r.eraseIdx j)))
        0

/-- Determinant of a square matrix given as a list of rows. -/
def detL (m : List (List ℚ)) : ℚ := detAux m.length m

/-- Replace column `j` of `m` by the vector `b`. -/
def replaceCol (m : List (List ℚ)) (j : Nat) (b : List ℚ) : List (List ℚ) :=
  (m.zip b).map (fun rb => rb.1.set j rb.2)

/-- Cramer solution of `A · x = b` (the unique solution when `detL A ≠ 0`). -/
def cramerSolve (a : List (List ℚ)) (b : List ℚ) : List ℚ :=
  (List.range a.length).map (fun j => detL (replaceCol a j b) / detL a)

/-- Matrix-vector product (rows dotted with the vector). -/
def matVec (a : List (List ℚ)) (x : List ℚ) : List ℚ :=
  a.map (fun row => ((row.zip x).map (fun p => p.1 * p.2)).sum)

/-! ### Spanning forest, connected components and fundamental cycles

`Failed/gamma.py` relies on `networkx`: `nx.connected_components` /
`nx.is_connected` for connectivity and `nx.cycle_basis` for the
fundamental cycle basis.  Both are embedded through one left fold over
the edge list: a partition of the vertices is refined edge by edge
(union-find); an edge whose endpoints already share a block is a chord
and closes exactly one fundamental cycle through the spanning forest
built from the tree edges — this is the spanning-tree/chord construction
of the spec (§4.2) that `nx.cycle_basis` implements. -/

/-- One union-find step: if the endpoints of `e` share a block the
partition is unchanged, otherwise their two blocks are merged. -/
def mergeBlocks (p : List (List Nat)) (u v : Nat) : List (List Nat) :=
  (p.filter (fun b => !decide (u ∈ b) && !decide (v ∈ b))) ++
    [(p.filter (fun b => decide (u ∈ b))).flatten ++
      (p.filter (fun b => decide (v ∈ b))).flatten]

/-- State of the edge scan: current partition, tree edges, chords. -/
structure UFState where
  part : List (List Nat)
  tree : List (Nat × Nat)
  chords : List (Nat × Nat)
  deriving Repr

/-- Process one edge: chord if its endpoints are already connected,
otherwise a spanning-tree edge (blocks merged). -/
def scanEdge (s : UFState) (e : Nat × Nat) : UFState :=
  if ∃ b ∈ s.part, e.1 ∈ b ∧ e.2 ∈ b then
    { s with chords := s.chords ++ [e] }
  else
    { part := mergeBlocks s.part e.1 e.2, tree := s.tree ++ [e],
      chords := s.chords }

/-- Initial partition: one singleton block per vertex. -/
def initPart (nodes : List Nat) : List (List Nat) :=
  nodes.map (fun v => [v])

/-- Scan all edges from the singleton partition. -/
def scanGraph (nodes : List Nat) (edges : List (Nat × Nat)) : UFState :=
  edges.foldl scanEdge ⟨initPart nodes, [], []⟩

/-- Number of connected components (size of the final partition);
embeds `nx.connected_components` / `nx.is_connected` (connected iff 1). -/
def numComponents (nodes : List Nat) (edges : List (Nat × Nat)) : Nat :=
  (scanGraph nodes edges).part.length

/-- Neighbors of `v` in an (undirected) edge list. -/
def neighborsIn (tree : List (Nat × Nat)) (v : Nat) : List Nat :=
  tree.foldr
    (fun e acc =>
      if e.1 = v then e.2 :: acc else if e.2 = v then e.1 :: acc else acc)
    []

/-- Depth-first path search in the spanning forest (with fuel; the forest
is acyclic so `tree.length + 1` steps always suffice). -/
def dfsPath (tree : List (Nat × Nat)) :
    Nat → List Nat → Nat → Nat → Option (List Nat)
  | 0, _, _, _ => none
  | fuel + 1, visited, cur, tgt =>
    if cur = tgt then some [cur]
    else
      (neighborsIn tree cur).findSome? (fun nb =>
        if nb ∈ visited then none
        else (dfsPath tree fuel (nb :: visited) nb tgt).map
          (fun path => cur :: path))

/-- Fundamental cycle of a chord: the tree path between its endpoints;
the chord itself closes the walk (the node list is read cyclically). -/
def fundCycle (tree : List (Nat × Nat)) (e : Nat × Nat) : List Nat :=
  (dfsPath tree (tree.length + 1) [e.1] e.1 e.2).getD [e.1, e.2]

/-- Fundamental cycle basis: one cycle per chord; embeds
`nx.cycle_basis` (spanning tree plus chords, spec §4.2). -/
def cycleBasis (nodes : List Nat) (edges : List (Nat × Nat)) :
    List (List Nat) :=
  let s := scanGraph nodes edges
  s.chords.map (fundCycle s.tree)

/-! #### Counting lemma: `#chords + #nodes = #edges + #components` -/

/-- Blocks are pairwise disjoint. -/
def PartDisj (p : List (List Nat)) : Prop :=
  p.Pairwise (fun a b => ∀ x, x ∈ a → x ∉ b)

/-- A vertex is covered by the partition. -/
def Covers (p : List (List Nat)) (x : Nat) : Prop := ∃ b ∈ p, x ∈ b

/-! ### `Failed/gamma.py`: scene model, `_build_graph` and `analyze_circuit`

A scene holds `CircuitComponent`s (resistor `R` or voltage source `V`,
each with two connection dots; for a source dot1 is the positive pole)
and `ConnectionLine`s between dots.  `_build_graph` makes every dot a
graph node, adds one internal edge per component between its two dots,
and one `wire` edge per connection line whose dots exist, are distinct
as nodes and are not already joined by an edge. -/

inductive GKind
  | resistor
  | volt
  deriving DecidableEq, Repr

structure GComp where
  kind : GKind
  value : ℚ
  deriving DecidableEq, Repr

/-- A connection endpoint: component index plus which dot
(`false` = dot1, `true` = dot2). -/
abbrev GDot := Nat × Bool

structure Scene where
  comps : List GComp
  conns : List (GDot × GDot)
  deriving DecidableEq, Repr

inductive GElem
  | wire
  | comp (kind : GKind) (value : ℚ)
  deriving DecidableEq, Repr

structure GGraph where
  nodes : List Nat
  edges : List (Nat × Nat × GElem)
  deriving DecidableEq, Repr

/-- Node id of a dot: dots are enumerated two per component, in
component order (gamma numbers dots in discovery order; the numbering
is a fixed bijection, irrelevant to the analysis). -/
def dotId (d : GDot) : Nat := 2 * d.1 + (if d.2 then 1 else 0)

def hasEdgeP (es : List (Nat × Nat × GElem)) (a b : Nat) : Bool :=
  es.any (fun e =>
    decide ((e.1 = a ∧ e.2.1 = b) ∨ (e.1 = b ∧ e.2.1 = a)))

def internalEdges (comps : List GComp) : List (Nat × Nat × GElem) :=
  comps.enum.map
    (fun ic => (2 * ic.1, 2 * ic.1 + 1, GElem.comp ic.2.kind ic.2.value))

/-- Add one connection line as a `wire` edge (skipped when a dot is
dangling, the nodes coincide, or the edge already exists — mirroring the
`in node_map` / `dot1_node_id != dot2_node_id` / `has_edge` guards). -/
def addWire (n : Nat) (es : List (Nat × Nat × GElem)) (c : GDot × GDot) :
    List (Nat × Nat × GElem) :=
  let a := dotId c.1
  let b := dotId c.2
  if c.1.1 < n ∧ c.2.1 < n ∧ a ≠ b ∧ hasEdgeP es a b = false then
    es ++ [(a, b, GElem.wire)]
  else es

def build_graph (s : Scene) : GGraph :=
  { nodes := List.range (2 * s.comps.length),
    edges := s.conns.foldl (addWire s.comps.length) (internalEdges s.comps) }

def edgePairs (g : GGraph) : List (Nat × Nat) :=
  g.edges.map (fun e => (e.1, e.2.1))

/-- The distinct failure exits of `analyze_circuit`, in source order. -/
inductive GErr
  | noComponents
  | noConnections
  | notConnected
  | unconnected
  | noMeshes
  | singular
  deriving DecidableEq, Repr

/-- The typed failure taxonomy of the spec (§7). -/
inductive FailKind
  | EmptyCircuit
  | Unconnected
  | NoCycles
  | SingularSystem
  | InvalidComponent
  deriving DecidableEq, Repr

/-- Map each of gamma's failure messages to the taxonomy of the spec:
missing components → `EmptyCircuit`; the three connectivity complaints
("No connections found", "Components exist but are not connected",
"Circuit is not fully connected") → `Unconnected`; absence of closed
loops → `NoCycles`; the near-zero determinant exit → `SingularSystem`. -/
def classify : GErr → FailKind
  | .noComponents => .EmptyCircuit
  | .noConnections => .Unconnected
  | .notConnected => .Unconnected
  | .unconnected => .Unconnected
  | .noMeshes => .NoCycles
  | .singular => .SingularSystem

/-- Stages of `analyze_circuit` before matrix assembly: validation,
graph build, connectivity check, cycle-basis extraction. -/
def gammaPrepare (s : Scene) : Except GErr (GGraph × List (List Nat)) :=
  if s.comps.isEmpty then .error .noComponents
  else if s.conns.isEmpty ∧ s.comps.length > 1 then .error .noConnections
  else
    let g := build_graph s
    if g.nodes.length > 1 ∧ g.edges.isEmpty then .error .notConnected
    else if numComponents g.nodes (edgePairs g) ≠ 1 then .error .unconnected
    else
      let meshes := cycleBasis g.nodes (edgePairs g)
      if meshes.isEmpty then .error .noMeshes
      else .ok (g, meshes)

def findEdge (g : GGraph) (u v : Nat) : Option (Nat × Nat × GElem) :=
  g.edges.find? (fun e =>
    decide ((e.1 = u ∧ e.2.1 = v) ∨ (e.1 = v ∧ e.2.1 = u)))

/-- Consecutive node pairs of a cycle, wrapping around. -/
def cyclicPairs (m : List Nat) : List (Nat × Nat) :=
  match m with
  | [] => []
  | x :: xs => m.zip (xs ++ [x])

/-- gamma's `ordered_edges` for one mesh: the cyclic pairs that are
actual graph edges. -/
def meshEdgesOrdered (g : GGraph) (m : List Nat) : List (Nat × Nat) :=
  (cyclicPairs m).filter (fun p => hasEdgeP g.edges p.1 p.2)

def normEdge (p : Nat × Nat) : Nat × Nat :=
  if p.1 ≤ p.2 then p else (p.2, p.1)

/-- gamma's `edge_meshes`: occurrences of (frozenset edge, mesh index). -/
def edgeMeshes (g : GGraph) (meshes : List (List Nat)) :
    List ((Nat × Nat) × Nat) :=
  (meshes.enum.map
    (fun im => (meshEdgesOrdered g im.2).map
      (fun p => (normEdge p, im.1)))).flatten

def meshIndicesOf (em : List ((Nat × Nat) × Nat)) (p : Nat × Nat) :
    List Nat :=
  em.filterMap (fun q => if q.1 = normEdge p then some q.2 else none)

def updM (f : Nat → Nat → ℚ) (i j : Nat) (x : ℚ) : Nat → Nat → ℚ :=
  fun a b => if a = i ∧ b = j then x else f a b

def updV (f : Nat → ℚ) (i : Nat) (x : ℚ) : Nat → ℚ :=
  fun a => if a = i then x else f a

/-- One KVL contribution along mesh `i` for the traversal step `uv`:
resistors add to the diagonal and subtract from shared meshes; a source
adds (rise) or subtracts (drop) its EMF depending on whether the mesh
runs dot2→dot1 or dot1→dot2; wires contribute nothing. -/
def applyMeshEdge (g : GGraph) (em : List ((Nat × Nat) × Nat)) (i : Nat)
    (st : (Nat → Nat → ℚ) × (Nat → ℚ)) (uv : Nat × Nat) :
    (Nat → Nat → ℚ) × (Nat → ℚ) :=
  match findEdge g uv.1 uv.2 with
  | none => st
  | some (a, b, el) =>
    match el with
    | .wire => st
    | .comp k val =>
      let dir : Int :=
        if uv.1 = a ∧ uv.2 = b then 1
        else if uv.1 = b ∧ uv.2 = a then -1 else 0
      if dir = 0 then st
      else
        match k with
        | .resistor =>
          let r1 := updM st.1 i i (st.1 i i + val)
          let r2 := (meshIndicesOf em uv).foldl
            (fun racc j =>
              if j ≠ i then updM racc i j (racc i j - val) else racc) r1
          (r2, st.2)
        | .volt =>
          (st.1,
           if dir = 1 then updV st.2 i (st.2 i - val)
           else updV st.2 i (st.2 i + val))

/-- `R_temp` / `V_temp` after the per-mesh KVL loops. -/
def assembleState (g : GGraph) (meshes : List (List Nat)) :
    (Nat → Nat → ℚ) × (Nat → ℚ) :=
  meshes.enum.foldl
    (fun st im =>
      (meshEdgesOrdered g im.2).foldl
        (applyMeshEdge g (edgeMeshes g meshes) im.1) st)
    (fun _ _ => 0, fun _ => 0)

/-- gamma's final resistance matrix: `(R_temp + R_tempᵀ)/2` with the
original diagonal restored. -/
def gammaMatrixFun (g : GGraph) (meshes : List (List Nat)) :
    Nat → Nat → ℚ :=
  fun i j =>
    if i = j then (assembleState g meshes).1 i i
    else ((assembleState g meshes).1 i j + (assembleState g meshes).1 j i) / 2

def toLists (n : Nat) (f : Nat → Nat → ℚ) : List (List ℚ) :=
  (List.range n).map (fun i => (List.range n).map (fun j => f i j))

def toList1 (n : Nat) (f : Nat → ℚ) : List ℚ :=
  (List.range n).map f

/-- The assembled `(A, b)` mesh system of gamma. -/
def gammaAssemble (g : GGraph) (meshes : List (List Nat)) :
    List (List ℚ) × List ℚ :=
  (toLists meshes.length (gammaMatrixFun g meshes),
   toList1 meshes.length (assembleState g meshes).2)

/-- gamma's fixed singularity tolerance `1e-9`. -/
def singTol : ℚ := 1 / 1000000000

/-- Full `analyze_circuit`: prepare, assemble, determinant check
against `1e-9`, then solve. -/
def analyze_circuit (s : Scene) : Except GErr (List ℚ) :=
  match gammaPrepare s with
  | .error e => .error e
  | .ok gm =>
    let ab := gammaAssemble gm.1 gm.2
    if |detL ab.1| < singTol then .error .singular
    else .ok (cramerSolve ab.1 ab.2)

/-! ### `V1/CircuitBoard.py` and `V2/CircuitBoard.py`: mesh calculators

Both variants build the same system: `R[i][i]` is the sum of the
resistances listed for mesh `i+1`, every shared-resistor record
`(r, m1, m2)` subtracts `R_r` from `R[m1-1][m2-1]` and `R[m2-1][m1-1]`,
and `V_vector[i] = voltage_source` for every mesh (V1 line 70, V2 line
253 — "Assumes the same voltage source for all meshes").  The system is
then handed to `np.linalg.solve`, which fails exactly on singular
matrices. -/

/-- One shared-resistor record applied to the matrix:
`R_matrix[idx1, idx2] -= r` and `R_matrix[idx2, idx1] -= r`
(both subtractions hit the same cell when the indices coincide, exactly
as the two `-=` statements would). -/
def sharedStep (resistorValues : List (Nat × ℚ)) (f : Nat → Nat → ℚ)
    (t : Nat × Nat × Nat) : Nat → Nat → ℚ :=
  fun i j =>
    f i j -
      (if i = t.2.1 - 1 ∧ j = t.2.2 - 1 then
        (resistorValues.lookup t.1).getD 0 else 0) -
      (if i = t.2.2 - 1 ∧ j = t.2.1 - 1 then
        (resistorValues.lookup t.1).getD 0 else 0)

def meshMatrixFun (resistorValues : List (Nat × ℚ))
    (meshDefs : List (List Nat)) (shared : List (Nat × Nat × Nat)) :
    Nat → Nat → ℚ :=
  shared.foldl (sharedStep resistorValues)
    (fun i j =>
      if i = j then
        ((meshDefs.getD i []).map
          (fun r => (resistorValues.lookup r).getD 0)).sum
      else 0)

/-- V1 `calculate_mesh_currents` (the number of meshes is the length of
`meshDefs`; the right-hand side repeats the single source value). -/
def calculate_mesh_currents (resistorValues : List (Nat × ℚ))
    (meshDefs : List (List Nat)) (shared : List (Nat × Nat × Nat))
    (voltage : ℚ) : Option (List ℚ) :=
  let n := meshDefs.length
  let a := toLists n (meshMatrixFun resistorValues meshDefs shared)
  let b := List.replicate n voltage
  if detL a = 0 then none else some (cramerSolve a b)

inductive V2Err
  | valueError
  | linAlgError
  deriving DecidableEq, Repr

/-- V2 `perform_mesh_analysis`: re-validates resistances (> 0), mesh
definitions (nonempty, referencing defined resistors) and shared
records (defined resistor, valid distinct mesh ids), then builds and
solves the same system as V1. -/
def perform_mesh_analysis (voltage : ℚ)
    (resistorValues : List (Nat × ℚ)) (meshDefs : List (List Nat))
    (shared : List (Nat × Nat × Nat)) : Except V2Err (List ℚ) :=
  if resistorValues.any (fun rv => decide (rv.2 ≤ 0)) then
    .error .valueError
  else if meshDefs.any (fun md =>
      md.isEmpty ||
        md.any (fun r => decide (resistorValues.lookup r = none))) then
    .error .valueError
  else if shared.any (fun t =>
      decide (resistorValues.lookup t.1 = none ∨
        ¬ (1 ≤ t.2.1 ∧ t.2.1 ≤ meshDefs.length ∧
           1 ≤ t.2.2 ∧ t.2.2 ≤ meshDefs.length) ∨
        t.2.1 = t.2.2)) then
    .error .valueError
  else
    let n := meshDefs.length
    let a := toLists n (meshMatrixFun resistorValues meshDefs shared)
    let b := List.replicate n voltage
    if detL a = 0 then .error .linAlgError
    else .ok (cramerSolve a b)

/-! ### `Failed/delta.py`: node analysis

Nodes are named `A`, `B`, … (embedded as `0, 1, …`).  `enter_data`
validates the dialogs, then builds an `nx.Graph`: first the battery
edge, then resistors chained along consecutive nodes (the dialog nodes
are validated but ignored for wiring), plus a default `1 Ω` closing
edge when there are exactly three nodes.  `nx.add_edge` on an existing
(undirected) pair replaces its attributes. -/

inductive DElem
  | res (v : ℚ)
  | vs (v : ℚ)
  deriving DecidableEq, Repr

abbrev DEdges := List (Nat × Nat × DElem)

def sameEdgeD (e : Nat × Nat × DElem) (a b : Nat) : Bool :=
  decide ((e.1 = a ∧ e.2.1 = b) ∨ (e.1 = b ∧ e.2.1 = a))

/-- `nx.Graph.add_edge`: replace attributes if the pair exists,
otherwise append. -/
def addEdgeD (es : DEdges) (a b : Nat) (d : DElem) : DEdges :=
  if es.any (fun e => sameEdgeD e a b) then
    es.map (fun e => if sameEdgeD e a b then (e.1, e.2.1, d) else e)
  else es ++ [(a, b, d)]

structure DeltaIn where
  numNodes : Nat
  vsPos : Nat
  vsNeg : Nat
  vsVal : ℚ
  /-- Resistor dialog records: (node1, node2, resistance). -/
  resistors : List (Nat × Nat × ℚ)

def deltaEdges (inp : DeltaIn) : DEdges :=
  let e1 := addEdgeD [] inp.vsPos inp.vsNeg (DElem.vs inp.vsVal)
  let e2 := inp.resistors.enum.foldl
    (fun es ir => addEdgeD es ir.1 (ir.1 + 1) (DElem.res ir.2.2.2)) e1
  if inp.numNodes = 3 then addEdgeD e2 0 2 (DElem.res 1) else e2

/-- `enter_data` validation followed by the graph build; `none` models
the early returns behind the warning dialogs. -/
def enter_data (inp : DeltaIn) : Option DEdges :=
  if inp.numNodes < 2 then none
  else if inp.resistors.length < 1 then none
  else if inp.resistors.length ≠ inp.numNodes - 1 then none
  else if inp.vsPos = inp.vsNeg then none
  else if inp.vsVal ≤ 0 then none
  else if inp.resistors.any (fun r => decide (r.1 = r.2.1 ∨ r.2.2 ≤ 0)) then
    none
  else some (deltaEdges inp)

/-- `nx` node degree: number of incident edges. -/
def degreeD (es : DEdges) (v : Nat) : Nat :=
  (es.filter (fun e => decide (e.1 = v ∨ e.2.1 = v))).length

/-- Python `max(degrees, key=degrees.get)`: first maximum in node
insertion order. -/
def chooseGroundList (nodes : List Nat) (es : DEdges) : Nat :=
  match nodes with
  | [] => 0
  | a :: rest =>
    rest.foldl
      (fun best v => if degreeD es v > degreeD es best then v else best) a

/-- `choose_ground_node`: the nodes were inserted in identifier order
`A, B, C, …`, i.e. `0, 1, 2, …`. -/
def choose_ground_node (n : Nat) (es : DEdges) : Nat :=
  chooseGroundList (List.range n) es

def unknownsD (n ground : Nat) : List Nat :=
  (List.range n).filter (fun v => decide (v ≠ ground))

def incidentD (es : DEdges) (v : Nat) : List (Nat × DElem) :=
  es.filterMap (fun e =>
    if e.1 = v then some (e.2.1, e.2.2)
    else if e.2.1 = v then some (e.1, e.2.2) else none)

def addAt (l : List ℚ) (i : Nat) (x : ℚ) : List ℚ :=
  l.set i (l.getD i 0 + x)

/-- One node's sympy expression as (coefficients over the unknowns,
constant term).  A resistor edge contributes `1/R` to the node and
`−1/R` to a non-ground neighbor (a ground neighbor stands for the
literal `0`).  A voltage-source edge contributes
`(V_n − V_neighbor)/sp.oo`, which sympy evaluates to `0`: no
coefficient and no constant — the source's EMF never enters. -/
def rowFor (es : DEdges) (unknowns : List Nat) (ground n : Nat) :
    List ℚ × ℚ :=
  (incidentD es n).foldl
    (fun acc t =>
      match t.2 with
      | .res r =>
        let acc1 : List ℚ × ℚ :=
          (addAt acc.1 (unknowns.indexOf n) (1 / r), acc.2)
        if t.1 = ground then acc1
        else (addAt acc1.1 (unknowns.indexOf t.1) (-(1 / r)), acc1.2)
      | .vs _ => acc)
    (List.replicate unknowns.length 0, 0)

/-- `generate_node_equations`: one expression per non-ground node, in
node order. -/
def generate_node_equations (n : Nat) (es : DEdges) (ground : Nat) :
    List (List ℚ × ℚ) :=
  (unknownsD n ground).map (fun node => rowFor es (unknownsD n ground) ground node)

/-- `sp.solve` on the linear system `coeffs · V + const = 0`: the
unique solution when the coefficient matrix is nonsingular. -/
def solve_analysis (inp : DeltaIn) : Option (List ℚ) :=
  match enter_data inp with
  | none => none
  | some es =>
    let ground := choose_ground_node inp.numNodes es
    let rows := generate_node_equations inp.numNodes es ground
    let a := rows.map (fun r => r.1)
    let b := rows.map (fun r => -r.2)
    if detL a = 0 then none else some (cramerSolve a b)

/-- `self.solutions.get(V_node)` with `None → 0` (the ground node has
no symbol, hence `0`). -/
def deltaVolt (n ground : Nat) (sol : List ℚ) (v : Nat) : ℚ :=
  if v = ground then 0 else sol.getD ((unknownsD n ground).indexOf v) 0

/-- The per-edge current report of `solve_analysis`:
`(v1 − v2) / data["value"]` for EVERY edge — the divisor of a
voltage-source edge is its EMF. -/
def deltaBranchCurrents (inp : DeltaIn) : Option (List ℚ) :=
  match enter_data inp, solve_analysis inp with
  | some es, some sol =>
    let ground := choose_ground_node inp.numNodes es
    some (es.map (fun e =>
      (deltaVolt inp.numNodes ground sol e.1 -
        deltaVolt inp.numNodes ground sol e.2.1) /
        (match e.2.2 with | .res r => r | .vs v => v)))
  | _, _ => none

/-- `calculate_total_current`: `(v1 − v2) / vs_value` on the battery
terminals (the line carries a literal `#error` comment in the source). -/
def calculate_total_current (inp : DeltaIn) : Option ℚ :=
  match enter_data inp, solve_analysis inp with
  | some es, some sol =>
    let ground := choose_ground_node inp.numNodes es
    some ((deltaVolt inp.numNodes ground sol inp.vsPos -
           deltaVolt inp.numNodes ground sol inp.vsNeg) / inp.vsVal)
  | _, _ => none

/-! ### Concrete instances used by the claim theorems -/

/-- Two ideal voltage sources in parallel: the two dot1 poles wired
together and the two dot2 poles wired together — a single mesh with no
resistance. -/
def parScene : Scene :=
  { comps := [⟨.volt, 5⟩, ⟨.volt, 3⟩],
    conns := [((0, false), (1, false)), ((0, true), (1, true))] }

/-- Two components with no connection lines: two graph islands. -/
def twoIslandScene : Scene :=
  { comps := [⟨.resistor, 1⟩, ⟨.resistor, 1⟩], conns := [] }

/-- A single unwired resistor: a connected two-node tree, no loop. -/
def loneScene : Scene :=
  { comps := [⟨.resistor, 1⟩], conns := [] }

/-- delta input: 4 nodes `A..D` (`0..3`), a 10 V battery with positive
terminal `D` and negative terminal `A`, and the chain resistors
`A-B = 2 Ω`, `B-C = 3 Ω`, `C-D = 4 Ω`: a single 10 V / 9 Ω loop whose
physical current is `10/9 A`. -/
def deltaLoop : DeltaIn := ⟨4, 3, 0, 10, [(0, 1, 2), (1, 2, 3), (2, 3, 4)]⟩

/-- Modelled from the spec: the engine must "compute the unique set of
branch currents and node voltages that satisfy Kirchhoff's laws" (§1,
§4.4) — the code under test never implements this correctly for
sources, so the reference laws are stated from the spec for the
concrete `deltaLoop` circuit: ground `A` at 0 V, the source forcing
`V_D − V_A = 10`, and one loop current `i` with Ohm drops `4i`, `3i`,
`2i` across the chain resistors. -/
def loopLaws (vB vC vD i : ℚ) : Prop :=
  vD - 0 = 10 ∧ vD - vC = 4 * i ∧ vC - vB = 3 * i ∧ vB - 0 = 2 * i

/-! ### Counting lemmas for the spanning-forest scan -/

theorem countP_split (p : List (List Nat)) (u v : Nat) :
    p.countP (fun b => !decide (u ∈ b) && !decide (v ∈ b)) +
      p.countP (fun b => decide (u ∈ b)) +
      p.countP (fun b => decide (v ∈ b)) =
    p.length + p.countP (fun b => decide (u ∈ b) && decide (v ∈ b)) := by
  induction p with
  | nil => simp
  | cons hd tl ih =>
    by_cases hu : u ∈ hd <;> by_cases hv : v ∈ hd <;>
      simp [List.countP_cons, hu, hv] <;> omega

theorem countP_mem_le_one (p : List (List Nat)) (u : Nat)
    (hd : PartDisj p) : p.countP (fun b => decide (u ∈ b)) ≤ 1 := by
  induction p with
  | nil => simp
  | cons hd0 tl ih =>
    rcases List.pairwise_cons.mp hd with ⟨hhead, htl⟩
    by_cases hu : u ∈ hd0
    · have hz : tl.countP (fun b => decide (u ∈ b)) = 0 := by
        apply List.countP_eq_zero.mpr
        intro b hb
        simp only [decide_eq_true_eq]
        exact hhead b hb u hu
      simp [List.countP_cons, hu, hz]
    · have := ih htl
      simp [List.countP_cons, hu]
      omega

theorem countP_mem_pos (p : List (List Nat)) (u : Nat)
    (hc : Covers p u) : 1 ≤ p.countP (fun b => decide (u ∈ b)) := by
  rcases hc with ⟨b, hb, hub⟩
  apply List.countP_pos_iff.mpr
  exact ⟨b, hb, by simpa using hub⟩

theorem mergeBlocks_length (p : List (List Nat)) (u v : Nat)
    (hd : PartDisj p) (hu : Covers p u) (hv : Covers p v)
    (hsep : ¬ ∃ b ∈ p, u ∈ b ∧ v ∈ b) :
    (mergeBlocks p u v).length + 1 = p.length := by
  have hboth : p.countP (fun b => decide (u ∈ b) && decide (v ∈ b)) = 0 := by
    apply List.countP_eq_zero.mpr
    intro b hb
    simp only [Bool.and_eq_true, decide_eq_true_eq, not_and]
    intro h1 h2
    exact hsep ⟨b, hb, h1, h2⟩
  have hu1 : p.countP (fun b => decide (u ∈ b)) = 1 :=
    le_antisymm (countP_mem_le_one p u hd) (countP_mem_pos p u hu)
  have hv1 : p.countP (fun b => decide (v ∈ b)) = 1 :=
    le_antisymm (countP_mem_le_one p v hd) (countP_mem_pos p v hv)
  have hsplit := countP_split p u v
  have hflen :
      (p.filter (fun b => !decide (u ∈ b) && !decide (v ∈ b))).length =
      p.countP (fun b => !decide (u ∈ b) && !decide (v ∈ b)) :=
    (List.countP_eq_length_filter _ _).symm
  unfold mergeBlocks
  simp only [List.length_append, List.length_cons, List.length_nil]
  omega

theorem disjB_symm :
    Symmetric (fun (a b : List Nat) => ∀ x, x ∈ a → x ∉ b) := by
  intro a b h x hxb hxa
  exact h x hxa hxb

theorem partDisj_mergeBlocks (p : List (List Nat)) (u v : Nat)
    (hd : PartDisj p) : PartDisj (mergeBlocks p u v) := by
  unfold PartDisj mergeBlocks
  rw [List.pairwise_append]
  refine ⟨hd.sublist (List.filter_sublist p), List.pairwise_singleton _ _, ?_⟩
  intro a ha b hb x hxa hxb
  rw [List.mem_singleton] at hb
  subst hb
  rw [List.mem_filter] at ha
  rcases ha with ⟨hap, hcond⟩
  simp only [Bool.and_eq_true, Bool.not_eq_true', decide_eq_false_iff_not]
    at hcond
  have hforall := hd.forall disjB_symm
  rcases List.mem_append.mp hxb with hxl | hxr
  · rcases List.mem_flatten.mp hxl with ⟨b2, hb2, hxb2⟩
    rw [List.mem_filter] at hb2
    rcases hb2 with ⟨hb2p, hb2u⟩
    simp only [decide_eq_true_eq] at hb2u
    have hne : a ≠ b2 := by
      intro he
      exact hcond.1 (he ▸ hb2u)
    exact hforall hap hb2p hne x hxa hxb2
  · rcases List.mem_flatten.mp hxr with ⟨b2, hb2, hxb2⟩
    rw [List.mem_filter] at hb2
    rcases hb2 with ⟨hb2p, hb2v⟩
    simp only [decide_eq_true_eq] at hb2v
    have hne : a ≠ b2 := by
      intro he
      exact hcond.2 (he ▸ hb2v)
    exact hforall hap hb2p hne x hxa hxb2

theorem covers_mergeBlocks (p : List (List Nat)) (u v x : Nat)
    (h : Covers p x) : Covers (mergeBlocks p u v) x := by
  rcases h with ⟨b, hb, hxb⟩
  unfold mergeBlocks
  by_cases hub : u ∈ b
  · refine ⟨_, List.mem_append_right _ (List.mem_singleton.mpr rfl), ?_⟩
    apply List.mem_append_left
    exact List.mem_flatten.mpr ⟨b, List.mem_filter.mpr ⟨hb, by simpa⟩, hxb⟩
  · by_cases hvb : v ∈ b
    · refine ⟨_, List.mem_append_right _ (List.mem_singleton.mpr rfl), ?_⟩
      apply List.mem_append_right
      exact List.mem_flatten.mpr ⟨b, List.mem_filter.mpr ⟨hb, by simpa⟩, hxb⟩
    · refine ⟨b, List.mem_append_left _ ?_, hxb⟩
      exact List.mem_filter.mpr ⟨hb, by simp [hub, hvb]⟩

theorem scan_count (es : List (Nat × Nat)) :
    ∀ (p : List (List Nat)) (t c : List (Nat × Nat)),
    PartDisj p → (∀ e ∈ es, Covers p e.1 ∧ Covers p e.2) →
    (es.foldl scanEdge ⟨p, t, c⟩).chords.length + p.length =
      c.length + es.length + (es.foldl scanEdge ⟨p, t, c⟩).part.length := by
  induction es with
  | nil =>
    intro p t c _ _
    simp
  | cons e es ih =>
    intro p t c hdisj hcov
    simp only [List.foldl_cons]
    by_cases hsame : ∃ b ∈ p, e.1 ∈ b ∧ e.2 ∈ b
    · rw [show scanEdge ⟨p, t, c⟩ e = ⟨p, t, c ++ [e]⟩ by
        simp [scanEdge, hsame]]
      have hrec := ih p t (c ++ [e]) hdisj
        (fun e2 he2 => hcov e2 (List.mem_cons_of_mem _ he2))
      simp only [List.length_append, List.length_cons, List.length_nil]
        at hrec ⊢
      omega
    · rw [show scanEdge ⟨p, t, c⟩ e =
          ⟨mergeBlocks p e.1 e.2, t ++ [e], c⟩ by
        simp [scanEdge, hsame]]
      have hme := hcov e (List.mem_cons_self _ _)
      have hlen := mergeBlocks_length p e.1 e.2 hdisj hme.1 hme.2 hsame
      have hrec := ih (mergeBlocks p e.1 e.2) (t ++ [e]) c
        (partDisj_mergeBlocks p e.1 e.2 hdisj)
        (fun e2 he2 =>
          ⟨covers_mergeBlocks _ _ _ _
            (hcov e2 (List.mem_cons_of_mem _ he2)).1,
           covers_mergeBlocks _ _ _ _
            (hcov e2 (List.mem_cons_of_mem _ he2)).2⟩)
      simp only [List.length_cons] at hrec ⊢
      omega

theorem initPart_disj (nodes : List Nat) (h : nodes.Nodup) :
    PartDisj (initPart nodes) := by
  unfold PartDisj initPart
  rw [List.pairwise_map]
  refine h.imp ?_
  intro a b hne x hxa hxb
  rw [List.mem_singleton] at hxa hxb
  exact hne (hxa ▸ hxb ▸ rfl)

theorem initPart_covers (nodes : List Nat) (x : Nat) (h : x ∈ nodes) :
    Covers (initPart nodes) x :=
  ⟨[x], List.mem_map.mpr ⟨x, h, rfl⟩, List.mem_singleton.mpr rfl⟩

/-- Master count: chords + vertices = edges + components.  The spanning
forest adds one tree edge per block merge; everything else is a chord. -/
theorem chords_count (nodes : List Nat) (edges : List (Nat × Nat))
    (h1 : nodes.Nodup)
    (h2 : ∀ e ∈ edges, e.1 ∈ nodes ∧ e.2 ∈ nodes) :
    (scanGraph nodes edges).chords.length + nodes.length =
      edges.length + numComponents nodes edges := by
  have hrec := scan_count edges (initPart nodes) [] []
    (initPart_disj nodes h1)
    (fun e he =>
      ⟨initPart_covers nodes e.1 (h2 e he).1,
       initPart_covers nodes e.2 (h2 e he).2⟩)
  have hinit : (initPart nodes).length = nodes.length := by
    simp [initPart]
  unfold numComponents scanGraph
  unfold scanGraph at hrec
  simp only [List.length_nil] at hrec
  omega

theorem cycleBasis_length (nodes : List Nat) (edges : List (Nat × Nat)) :
    (cycleBasis nodes edges).length = (scanGraph nodes edges).chords.length := by
  simp [cycleBasis]

/-! ### Helper lemmas -/

theorem sharedStep_symm (rv : List (Nat × ℚ)) (f : Nat → Nat → ℚ)
    (t : Nat × Nat × Nat) (hf : ∀ i j, f i j = f j i) (i j : Nat) :
    sharedStep rv f t i j = sharedStep rv f t j i := by
  unfold sharedStep
  rw [hf i j]
  have e1 : (if j = t.2.1 - 1 ∧ i = t.2.2 - 1 then
        (List.lookup t.1 rv).getD 0 else 0) =
      (if i = t.2.2 - 1 ∧ j = t.2.1 - 1 then
        (List.lookup t.1 rv).getD 0 else 0) :=
    if_congr and_comm rfl rfl
  have e2 : (if j = t.2.2 - 1 ∧ i = t.2.1 - 1 then
        (List.lookup t.1 rv).getD 0 else 0) =
      (if i = t.2.1 - 1 ∧ j = t.2.2 - 1 then
        (List.lookup t.1 rv).getD 0 else 0) :=
    if_congr and_comm rfl rfl
  rw [e1, e2]
  ring

theorem meshMatrix_fold_symm (rv : List (Nat × ℚ))
    (sh : List (Nat × Nat × Nat)) :
    ∀ (f : Nat → Nat → ℚ), (∀ i j, f i j = f j i) →
    ∀ i j, sh.foldl (sharedStep rv) f i j = sh.foldl (sharedStep rv) f j i := by
  induction sh with
  | nil => intro f hf i j; exact hf i j
  | cons t sh ih =>
    intro f hf i j
    simp only [List.foldl_cons]
    exact ih (sharedStep rv f t) (sharedStep_symm rv f t hf) i j

theorem meshMatrixFun_symm (rv : List (Nat × ℚ)) (md : List (List Nat))
    (sh : List (Nat × Nat × Nat)) (i j : Nat) :
    meshMatrixFun rv md sh i j = meshMatrixFun rv md sh j i := by
  apply meshMatrix_fold_symm
  intro a b
  by_cases h : a = b
  · subst h; rfl
  · rw [if_neg h, if_neg (Ne.symm h)]

theorem gammaMatrixFun_symm (g : GGraph) (meshes : List (List Nat))
    (i j : Nat) :
    gammaMatrixFun g meshes i j = gammaMatrixFun g meshes j i := by
  unfold gammaMatrixFun
  by_cases h : i = j
  · subst h; rfl
  · rw [if_neg h, if_neg (Ne.symm h)]
    ring

theorem foldl_argmaxFirst (es : DEdges) (l : List Nat) :
    ∀ (b : Nat), (∀ x ∈ l, b < x) → l.Pairwise (· < ·) →
    ((l.foldl (fun best v =>
        if degreeD es v > degreeD es best then v else best) b) = b ∨
     (l.foldl (fun best v =>
        if degreeD es v > degreeD es best then v else best) b) ∈ l) ∧
    degreeD es b ≤ degreeD es (l.foldl (fun best v =>
        if degreeD es v > degreeD es best then v else best) b) ∧
    (∀ v ∈ l, degreeD es v ≤ degreeD es (l.foldl (fun best v =>
        if degreeD es v > degreeD es best then v else best) b)) ∧
    (degreeD es (l.foldl (fun best v =>
        if degreeD es v > degreeD es best then v else best) b) ≤
      degreeD es b →
      (l.foldl (fun best v =>
        if degreeD es v > degreeD es best then v else best) b) = b) ∧
    (∀ v ∈ l, degreeD es v = degreeD es (l.foldl (fun best v =>
        if degreeD es v > degreeD es best then v else best) b) →
      (l.foldl (fun best v =>
        if degreeD es v > degreeD es best then v else best) b) ≤ v) := by
  induction l with
  | nil =>
    intro b _ _
    refine ⟨Or.inl rfl, le_refl _, ?_, fun _ => rfl, ?_⟩ <;> simp
  | cons a l ih =>
    intro b hlt hsort
    have hsort2 : l.Pairwise (· < ·) := (List.pairwise_cons.mp hsort).2
    have harest : ∀ x ∈ l, a < x := (List.pairwise_cons.mp hsort).1
    simp only [List.foldl_cons]
    by_cases hstep : degreeD es a > degreeD es b
    · rw [if_pos hstep]
      obtain ⟨h1, h2, h3, h4, h5⟩ := ih a harest hsort2
      refine ⟨?_, ?_, ?_, ?_, ?_⟩
      · rcases h1 with h | h
        · exact Or.inr (by rw [h]; exact List.mem_cons_self a l)
        · exact Or.inr (List.mem_cons_of_mem a h)
      · omega
      · intro v hv
        rcases List.mem_cons.mp hv with h | h
        · subst h; exact h2
        · exact h3 v h
      · intro hle
        omega
      · intro v hv htie
        rcases List.mem_cons.mp hv with h | h
        · subst h
          have := h4 (le_of_eq htie.symm)
          omega
        · exact h5 v h htie
    · rw [if_neg hstep]
      obtain ⟨h1, h2, h3, h4, h5⟩ := ih b
        (fun x hx => hlt x (List.mem_cons_of_mem a hx)) hsort2
      have hab : b < a := hlt a (List.mem_cons_self a l)
      refine ⟨?_, h2, ?_, h4, ?_⟩
      · rcases h1 with h | h
        · exact Or.inl h
        · exact Or.inr (List.mem_cons_of_mem a h)
      · intro v hv
        rcases List.mem_cons.mp hv with h | h
        · subst h; omega
        · exact h3 v h
      · intro v hv htie
        rcases List.mem_cons.mp hv with h | h
        · subst h
          have hr : _ = b := h4 (by omega)
          omega
        · exact h5 v h htie

theorem foldl_addWire_prefix (n : Nat) (conns : List (GDot × GDot)) :
    ∀ es : List (Nat × Nat × GElem),
      es <+: conns.foldl (addWire n) es := by
  induction conns with
  | nil => intro es; exact List.prefix_rfl
  | cons c conns ih =>
    intro es
    simp only [List.foldl_cons]
    refine List.IsPrefix.trans ?_ (ih (addWire n es c))
    simp only [addWire]
    split
    · exact ⟨[(dotId c.1, dotId c.2, GElem.wire)], rfl⟩
    · exact List.prefix_rfl

theorem foldl_addWire_zero (conns : List (GDot × GDot)) :
    conns.foldl (addWire 0) [] = [] := by
  induction conns with
  | nil => rfl
  | cons c conns ih =>
    simp only [List.foldl_cons]
    rw [show addWire 0 [] c = [] by simp [addWire]]
    exact ih

theorem build_graph_edges_ne_nil (s : Scene) (h : s.comps ≠ []) :
    (build_graph s).edges ≠ [] := by
  intro hnil
  have hpre : internalEdges s.comps <+: (build_graph s).edges :=
    foldl_addWire_prefix s.comps.length s.conns (internalEdges s.comps)
  rw [hnil] at hpre
  have hie := List.eq_nil_of_prefix_nil hpre
  have hlen : (internalEdges s.comps).length = s.comps.length := by
    simp [internalEdges]
  rw [hie] at hlen
  simp only [List.length_nil] at hlen
  exact h (List.length_eq_zero.mp hlen.symm)

theorem build_graph_empty (s : Scene) (hc : s.comps = []) :
    (build_graph s).nodes = [] ∧ (build_graph s).edges = [] := by
  constructor
  · simp [build_graph, hc]
  · show s.conns.foldl (addWire s.comps.length) (internalEdges s.comps) = []
    rw [hc]
    exact foldl_addWire_zero s.conns

theorem internal_pairs_cover (comps : List GComp) :
    ∀ p ∈ (internalEdges comps).map (fun e => (e.1, e.2.1)),
      p.1 ∈ List.range (2 * comps.length) ∧
      p.2 ∈ List.range (2 * comps.length) := by
  intro p hp
  rcases List.mem_map.mp hp with ⟨e, he, rfl⟩
  rcases List.mem_map.mp he with ⟨ic, hic, rfl⟩
  have hlt : ic.1 < comps.length := List.fst_lt_of_mem_enum hic
  refine ⟨?_, ?_⟩
  · rw [List.mem_range]
    show 2 * ic.1 < 2 * comps.length
    omega
  · rw [List.mem_range]
    show 2 * ic.1 + 1 < 2 * comps.length
    omega

/-- With no connection lines, each component is its own island: the
component count of the internal-edges-only graph is the component
count, never `1` when there are at least two components. -/
theorem islands_not_connected (comps : List GComp) (h2 : 2 ≤ comps.length) :
    numComponents (List.range (2 * comps.length))
      ((internalEdges comps).map (fun e => (e.1, e.2.1))) ≠ 1 := by
  intro h1
  have hcount := chords_count (List.range (2 * comps.length))
    ((internalEdges comps).map (fun e => (e.1, e.2.1)))
    (List.nodup_range _) (internal_pairs_cover comps)
  rw [h1] at hcount
  have hn := List.length_range (2 * comps.length)
  have hm : ((internalEdges comps).map (fun e => (e.1, e.2.1))).length =
      comps.length := by simp [internalEdges]
  omega

/-! ### Claim theorems -/

/-- C1 (amended): every mesh system assembled by gamma's
`analyze_circuit` is determinant-checked before solving — whenever
`|det A| < 1e-9` the result is the singular-system failure with no
numeric currents (two ideal sources in parallel assemble to the zero
matrix and hit this guard, see the witness).  V2's
`perform_mesh_analysis` performs no such tolerance check; see
`c1_counterexample`. -/
theorem c1_det_guard (s : Scene) (g : GGraph) (meshes : List (List Nat))
    (hp : gammaPrepare s = .ok (g, meshes))
    (hdet : |detL (gammaAssemble g meshes).1| < singTol) :
    analyze_circuit s = .error .singular ∧
    classify .singular = .SingularSystem := by
  constructor
  · unfold analyze_circuit
    rw [hp]
    simp [hdet]
  · rfl

/-- C1 witness: the parallel-sources scene prepares to the single mesh
`[1, 0, 2, 3]`, assembles to the zero 1×1 matrix, and fails singular. -/
theorem c1_det_guard_witness :
    analyze_circuit parScene = .error .singular ∧
    classify .singular = .SingularSystem :=
  c1_det_guard parScene (build_graph parScene) [[1, 0, 2, 3]]
    (by decide) (by decide)

/-- C1 counterexample: V2 has no determinant tolerance check — a
two-mesh system whose determinant `2^{-40}` is far below `1e-9` is
solved to numeric currents instead of failing as `SingularSystem`. -/
theorem c1_counterexample :
    |detL (toLists 2 (meshMatrixFun [(1, 1/1048576), (2, 1/1048576)]
      [[1], [2]] []))| < singTol ∧
    perform_mesh_analysis 1 [(1, 1/1048576), (2, 1/1048576)] [[1], [2]] [] =
      .ok [1048576, 1048576] := by
  exact ⟨by decide, by decide⟩

/-- C2 (amended): for the two-mesh circuit `R1 = 2`, `R2 = 3`,
`Rs = 1`, `V = 10`, both V1 `calculate_mesh_currents` and V2
`perform_mesh_analysis` place the source voltage on the right-hand side
of every mesh equation and return the solution `[50/11, 40/11]` of
`[[3,-1],[-1,4]] · I = [10, 10]`: the entry for the source-free mesh is
`10`, not `0`. -/
theorem c2_same_rhs :
    calculate_mesh_currents [(1, 2), (2, 3), (3, 1)] [[1, 3], [2, 3]]
      [(3, 1, 2)] 10 = some [50/11, 40/11] ∧
    perform_mesh_analysis 10 [(1, 2), (2, 3), (3, 1)] [[1, 3], [2, 3]]
      [(3, 1, 2)] = .ok [50/11, 40/11] ∧
    matVec [[3, -1], [-1, 4]] [50/11, 40/11] = [10, 10] := by
  exact ⟨by decide, by decide, by decide⟩

/-- C2 counterexample: the currents returned for that circuit do not
solve `[[3,-1],[-1,4]] · I = [10, 0]` — multiplying them back gives
`[10, 10]`, a nonzero right-hand side for the source-free mesh. -/
theorem c2_counterexample :
    (calculate_mesh_currents [(1, 2), (2, 3), (3, 1)] [[1, 3], [2, 3]]
      [(3, 1, 2)] 10).map (matVec [[3, -1], [-1, 4]]) = some [10, 10] ∧
    ([10, 10] : List ℚ) ≠ [10, 0] := by
  exact ⟨by decide, by decide⟩

/-- C3: delta's reports divide the voltage difference by the branch
"value" for every edge — for the battery that divisor is its EMF
(`calculate_total_current`, the line marked `#error` in the source),
not a KCL summation.  On `deltaLoop` the code reports 0 A for the
source and every branch, while any assignment satisfying the circuit's
Kirchhoff laws carries `10/9 A` through the source. -/
theorem c3_source_current_division :
    calculate_total_current deltaLoop = some 0 ∧
    deltaBranchCurrents deltaLoop = some [0, 0, 0, 0] ∧
    (∀ vB vC vD i : ℚ, loopLaws vB vC vD i → i = 10/9) := by
  refine ⟨by decide, by decide, ?_⟩
  intro vB vC vD i h
  obtain ⟨h1, h2, h3, h4⟩ := h
  linarith

theorem c3_source_current_division_witness :
    calculate_total_current deltaLoop = some 0 ∧ (10 : ℚ)/9 = 10/9 :=
  ⟨c3_source_current_division.1,
   c3_source_current_division.2.2 (20/9) (50/9) 10 (10/9)
     (by norm_num [loopLaws])⟩

/-- C4: delta's `generate_node_equations` gives a voltage source the
conductance `1/∞ = 0`: on `deltaLoop` (ground `A = 0`) the assembled
rows are pure resistor-KCL rows with zero constants — no row is the
constraint `V_D − V_A = ±10` — the homogeneous system solves to all-zero
voltages, and the source constraint is violated: `V_D − V_A = 0 ≠ 10`. -/
theorem c4_source_zero_conductance :
    choose_ground_node 4 (deltaEdges deltaLoop) = 0 ∧
    generate_node_equations 4 (deltaEdges deltaLoop) 0 =
      [([5/6, -(1/3), 0], 0), ([-(1/3), 7/12, -(1/4)], 0),
       ([0, -(1/4), 1/4], 0)] ∧
    solve_analysis deltaLoop = some [0, 0, 0] ∧
    deltaVolt 4 0 [0, 0, 0] 3 - deltaVolt 4 0 [0, 0, 0] 0 = 0 ∧
    (0 : ℚ) ≠ 10 := by
  exact ⟨by decide, by decide, by decide, by decide, by decide⟩

/-- C5: gamma's `analyze_circuit` fails before assembly on every input
whose circuit graph has more than one connected component (with a
failure classified `Unconnected`) and on every connected input whose
cycle basis is empty (with a failure classified `NoCycles`); in both
cases the result is a typed error, never numeric currents. -/
theorem c5_unconnected_nocycles (s : Scene) :
    (numComponents (build_graph s).nodes (edgePairs (build_graph s)) > 1 →
      ∃ e, analyze_circuit s = .error e ∧ classify e = .Unconnected) ∧
    (numComponents (build_graph s).nodes (edgePairs (build_graph s)) = 1 →
      cycleBasis (build_graph s).nodes (edgePairs (build_graph s)) = [] →
      ∃ e, analyze_circuit s = .error e ∧ classify e = .NoCycles) := by
  constructor
  · intro hcomp
    by_cases hempty : s.comps = []
    · exfalso
      obtain ⟨hn, he⟩ := build_graph_empty s hempty
      simp only [edgePairs, hn, he, List.map_nil] at hcomp
      have h0 : numComponents [] [] = 0 := rfl
      omega
    · by_cases hnoc : s.conns.isEmpty ∧ s.comps.length > 1
      · exact ⟨.noConnections,
          by simp [analyze_circuit, gammaPrepare, hempty, hnoc], rfl⟩
      · refine ⟨.unconnected, ?_, rfl⟩
        have hnoc2 : ¬ (s.conns = [] ∧ 1 < s.comps.length) := by
          simpa using hnoc
        have hne := build_graph_edges_ne_nil s hempty
        have hneq : numComponents (build_graph s).nodes
            (edgePairs (build_graph s)) ≠ 1 := by omega
        simp [analyze_circuit, gammaPrepare, hempty, hnoc2, hne, hneq]
  · intro hone hcyc
    by_cases hempty : s.comps = []
    · exfalso
      obtain ⟨hn, he⟩ := build_graph_empty s hempty
      simp only [edgePairs, hn, he, List.map_nil] at hone
      have h0 : numComponents [] [] = 0 := rfl
      omega
    · by_cases hnoc : s.conns.isEmpty ∧ s.comps.length > 1
      · exfalso
        have hc0 : s.conns = [] := by
          simpa using hnoc.1
        have hb : build_graph s =
            ⟨List.range (2 * s.comps.length), internalEdges s.comps⟩ := by
          simp [build_graph, hc0]
        rw [hb] at hone
        simp only [edgePairs] at hone
        exact islands_not_connected s.comps (by omega) hone
      · refine ⟨.noMeshes, ?_, rfl⟩
        have hnoc2 : ¬ (s.conns = [] ∧ 1 < s.comps.length) := by
          simpa using hnoc
        have hne := build_graph_edges_ne_nil s hempty
        simp [analyze_circuit, gammaPrepare, hempty, hnoc2, hne, hone, hcyc]

theorem c5_unconnected_nocycles_witness :
    (∃ e, analyze_circuit twoIslandScene = .error e ∧
      classify e = .Unconnected) ∧
    (∃ e, analyze_circuit loneScene = .error e ∧
      classify e = .NoCycles) :=
  ⟨(c5_unconnected_nocycles twoIslandScene).1 (by decide),
   (c5_unconnected_nocycles loneScene).2 (by decide) (by decide)⟩

/-- C6 (amended): the engine re-checks resistances — any resistor value
`≤ 0` makes V2's `perform_mesh_analysis` fail with its input-validation
error before solving.  EMF = 0 and coincident terminals are NOT
engine-checked: see `c6_counterexample` (a 0-EMF source is accepted and
solved); delta validates them only in the editor dialogs. -/
theorem c6_resistance_recheck (voltage : ℚ) (rv : List (Nat × ℚ))
    (md : List (List Nat)) (sh : List (Nat × Nat × Nat))
    (h : ∃ r ∈ rv, r.2 ≤ 0) :
    perform_mesh_analysis voltage rv md sh = .error .valueError := by
  have hb : rv.any (fun x => decide (x.2 ≤ 0)) = true := by
    rcases h with ⟨r, hr, hle⟩
    exact List.any_eq_true.mpr ⟨r, hr, by simpa using hle⟩
  unfold perform_mesh_analysis
  rw [if_pos hb]

theorem c6_resistance_recheck_witness :
    perform_mesh_analysis 10 [(1, -1)] [[1]] [] = .error .valueError :=
  c6_resistance_recheck 10 [(1, -1)] [[1]] []
    ⟨(1, -1), by decide, by decide⟩

/-- C6 counterexample: a source with EMF = 0 is not rejected — the
two-mesh circuit solves to numeric (zero) currents instead of failing
with an invalid-component error. -/
theorem c6_counterexample :
    perform_mesh_analysis 0 [(1, 2), (2, 3), (3, 1)] [[1, 3], [2, 3]]
      [(3, 1, 2)] = .ok [0, 0] := by
  decide

/-- C7: delta's `choose_ground_node` returns a junction of maximum
incident-branch degree, and among equal-degree junctions the one with
the least identifier (`max` with first-wins tie-break over nodes
inserted in identifier order). -/
theorem c7_ground_choice (n : Nat) (es : DEdges) (hn : 0 < n) :
    choose_ground_node n es < n ∧
    (∀ v, v < n → degreeD es v ≤ degreeD es (choose_ground_node n es)) ∧
    (∀ v, v < n → degreeD es v = degreeD es (choose_ground_node n es) →
      choose_ground_node n es ≤ v) := by
  obtain ⟨m, rfl⟩ : ∃ m, n = m + 1 :=
    ⟨n - 1, by omega⟩
  have hrange : List.range (m + 1) = 0 :: (List.range m).map Nat.succ :=
    List.range_succ_eq_map m
  have hsort : ((List.range m).map Nat.succ).Pairwise (· < ·) := by
    rw [List.pairwise_map]
    exact (List.pairwise_lt_range m).imp (fun h => Nat.succ_lt_succ h)
  have hpos : ∀ x ∈ (List.range m).map Nat.succ, 0 < x := by
    intro x hx
    rcases List.mem_map.mp hx with ⟨y, _, rfl⟩
    exact Nat.succ_pos y
  obtain ⟨h1, h2, h3, h4, h5⟩ :=
    foldl_argmaxFirst es ((List.range m).map Nat.succ) 0 hpos hsort
  have hdef : choose_ground_node (m + 1) es =
      ((List.range m).map Nat.succ).foldl
        (fun best v => if degreeD es v > degreeD es best then v else best)
        0 := by
    rw [choose_ground_node, hrange, chooseGroundList]
  rw [hdef]
  refine ⟨?_, ?_, ?_⟩
  · rcases h1 with h | h
    · rw [h]; omega
    · rcases List.mem_map.mp h with ⟨y, hy, hyy⟩
      have := List.mem_range.mp hy
      omega
  · intro v hv
    rcases Nat.eq_zero_or_pos v with rfl | hvpos
    · exact h2
    · exact h3 v (List.mem_map.mpr
        ⟨v - 1, List.mem_range.mpr (by omega), by omega⟩)
  · intro v hv htie
    rcases Nat.eq_zero_or_pos v with rfl | hvpos
    · have := h4 (le_of_eq htie.symm)
      omega
    · exact h5 v (List.mem_map.mpr
        ⟨v - 1, List.mem_range.mpr (by omega), by omega⟩) htie

theorem c7_ground_choice_witness :
    choose_ground_node 4 (deltaEdges deltaLoop) < 4 ∧
    degreeD (deltaEdges deltaLoop) 2 ≤
      degreeD (deltaEdges deltaLoop) (choose_ground_node 4 (deltaEdges deltaLoop)) :=
  ⟨(c7_ground_choice 4 (deltaEdges deltaLoop) (by decide)).1,
   (c7_ground_choice 4 (deltaEdges deltaLoop) (by decide)).2.1 2 (by decide)⟩

/-- C8: for every well-formed topology (distinct junctions, branch
endpoints among them), the number of extracted fundamental cycles
satisfies `#meshes + #junctions = #branches + #connectedComponents`
(the cycle-basis rank identity, stated additively over ℕ). -/
theorem c8_cycle_rank (nodes : List Nat) (edges : List (Nat × Nat))
    (h1 : nodes.Nodup)
    (h2 : ∀ e ∈ edges, e.1 ∈ nodes ∧ e.2 ∈ nodes) :
    (cycleBasis nodes edges).length + nodes.length =
      edges.length + numComponents nodes edges := by
  rw [cycleBasis_length]
  exact chords_count nodes edges h1 h2

theorem c8_cycle_rank_witness :
    (cycleBasis [0, 1, 2, 3] [(0, 1), (1, 2), (2, 0), (2, 3)]).length +
      ([0, 1, 2, 3] : List Nat).length =
    ([(0, 1), (1, 2), (2, 0), (2, 3)] : List (Nat × Nat)).length +
      numComponents [0, 1, 2, 3] [(0, 1), (1, 2), (2, 0), (2, 3)] :=
  c8_cycle_rank [0, 1, 2, 3] [(0, 1), (1, 2), (2, 0), (2, 3)]
    (by decide) (by decide)

/-- C9: the solvers are pure functions of exactly their arguments — the
embeddings take the full component data as parameters and read no other
state (the Python routines read only their parameters / widget values
snapshotted at call time), so calling twice on identical inputs yields
identical results, `Ok` or typed `Err` alike. -/
theorem c9_deterministic (rv1 rv2 : List (Nat × ℚ))
    (md1 md2 : List (List Nat)) (sh1 sh2 : List (Nat × Nat × Nat))
    (v1 v2 : ℚ) (s1 s2 : Scene)
    (ha : rv1 = rv2) (hb : md1 = md2) (hc : sh1 = sh2) (hd : v1 = v2)
    (he : s1 = s2) :
    calculate_mesh_currents rv1 md1 sh1 v1 =
      calculate_mesh_currents rv2 md2 sh2 v2 ∧
    perform_mesh_analysis v1 rv1 md1 sh1 =
      perform_mesh_analysis v2 rv2 md2 sh2 ∧
    analyze_circuit s1 = analyze_circuit s2 := by
  subst ha hb hc hd he
  exact ⟨rfl, rfl, rfl⟩

theorem c9_deterministic_witness :
    calculate_mesh_currents [(1, 2)] [[1]] [] 10 =
      calculate_mesh_currents [(1, 2)] [[1]] [] 10 ∧
    perform_mesh_analysis 10 [(1, 2)] [[1]] [] =
      perform_mesh_analysis 10 [(1, 2)] [[1]] [] ∧
    analyze_circuit loneScene = analyze_circuit loneScene :=
  c9_deterministic [(1, 2)] [(1, 2)] [[1]] [[1]] [] [] 10 10
    loneScene loneScene rfl rfl rfl rfl rfl

/-- C10: every assembled mesh coefficient matrix is symmetric — the
V1/V2 builder subtracts each shared resistance from both `A[i][j]` and
`A[j][i]` on top of a diagonal base, and gamma symmetrizes via
`(R + Rᵀ)/2` with the diagonal restored. -/
theorem c10_symmetric (rv : List (Nat × ℚ)) (md : List (List Nat))
    (sh : List (Nat × Nat × Nat)) (g : GGraph) (meshes : List (List Nat))
    (i j : Nat) :
    meshMatrixFun rv md sh i j = meshMatrixFun rv md sh j i ∧
    gammaMatrixFun g meshes i j = gammaMatrixFun g meshes j i :=
  ⟨meshMatrixFun_symm rv md sh i j, gammaMatrixFun_symm g meshes i j⟩

end CircuitBoard
